import Mathlib

/-!
Verification of the lilypad resource-provider reconciliation controller
(`pkg/resourceprovider`, file `resourceprovidercontroller.go`).

The Go controller is embedded shallowly: every solver/ledger call and every
log statement the controller performs is recorded as an `RPAction` in a trace,
and each Go function becomes a pure Lean function from its inputs and an
environment (the oracle answers of the external solver/ledger facades) to
the pair (trace of actions performed, returned error).  The periodic
reconciliation loop spawned by `Start` becomes a fuel-indexed recursive
function producing a trace of loop events.
-/

/-- Go `error`: we only ever compare errors for equality and thread them
through, so a plain message string suffices. -/
abbrev Err := String

/-- Opaque machine specification (`data.MachineSpec`, defined outside the
covered source).  The controller copies values of this type verbatim and
never inspects them, so an opaque tag is a faithful embedding. -/
structure MachineSpec where
  tag : Nat
deriving DecidableEq, Repr

/-- Opaque deal pricing terms (`data.DealPricing`): copied verbatim, never
inspected by the controller. -/
structure DealPricing where
  tag : Nat
deriving DecidableEq, Repr

/-- Opaque deal timeout terms (`data.DealTimeouts`): copied verbatim, never
inspected by the controller. -/
structure DealTimeouts where
  tag : Nat
deriving DecidableEq, Repr

/-- A deal as seen by the controller (`data.Deal`).  The controller reads
only the resource-provider address; the identifier stands for the rest of
the payload it passes around opaquely. -/
structure Deal where
  id : String
  resourceProvider : String
  state : String
deriving DecidableEq, Repr

/-- Query record for `solverClient.GetDeals` (`store.GetDealsQuery`): the
two fields the controller sets. -/
structure GetDealsQuery where
  resourceProvider : String
  state : String
deriving DecidableEq, Repr

/-- Query record for `solverClient.GetResourceOffers`
(`store.GetResourceOffersQuery`): the two fields the controller sets. -/
structure GetResourceOffersQuery where
  resourceProvider : String
  active : Bool
deriving DecidableEq, Repr

/-- A resource offer (`data.ResourceOffer`) with exactly the fields the
controller populates in `getResourceOffer`.  `createdAt` is a millisecond
timestamp (always non-negative, hence `Nat`); `index` is a Go `int`, and
offers reported back by the solver could in principle carry any integer,
hence `Int`.  The Go `map[string]...` override maps are embedded as
association lists (the controller only ever creates them empty). -/
structure ResourceOffer where
  createdAt : Nat
  resourceProvider : String
  index : Int
  spec : MachineSpec
  modules : List String
  mode : String
  defaultPricing : DealPricing
  defaultTimeouts : DealTimeouts
  modulePricing : List (String × DealPricing)
  moduleTimeouts : List (String × DealTimeouts)
  trustedParties : List String
deriving DecidableEq, Repr

/-- The solver's wrapped record of an offer (`data.ResourceOfferContainer`):
a solver-assigned id plus the offer.  Only the id and the wrapped offer's
`index` are read by the controller. -/
structure ResourceOfferContainer where
  id : String
  resourceOffer : ResourceOffer
deriving DecidableEq, Repr

/-- The `Offers` part of `ResourceProviderOptions`: the configured catalogue
and the fields copied verbatim into every new offer. -/
structure ResourceProviderOfferOptions where
  specs : List MachineSpec
  modules : List String
  mode : String
  defaultPricing : DealPricing
  defaultTimeouts : DealTimeouts
  trustedParties : List String
deriving DecidableEq, Repr

/-- The controller's configuration (`ResourceProviderOptions`); only the
`Offers` section is read by the reconciliation logic. -/
structure ResourceProviderOptions where
  offers : ResourceProviderOfferOptions
deriving DecidableEq, Repr

/-- The controller state used by the reconciliation logic:
`web3SDK.GetAddress().String()` (the provider's own address) and the
options.  The solver client and event channels are embedded as oracle
environments below. -/
structure Controller where
  selfAddress : String
  options : ResourceProviderOptions
deriving DecidableEq, Repr

/-- Solver event kinds (`solver.SolverEvent.EventType`).  The controller
only tests equality with `DealAdded`; `other` stands for every other kind. -/
inductive SolverEventType where
  | dealAdded
  | other
deriving DecidableEq, Repr

/-- A solver push event (`solver.SolverEvent`): a kind and an optional deal
payload (the Go `*data.Deal`, which may be nil). -/
structure SolverEvent where
  eventType : SolverEventType
  deal : Option Deal
deriving DecidableEq, Repr

/-- One observable action of the controller.  Solver and ledger calls are
recorded with their full arguments; log statements are recorded with their
title (and payload where a claim depends on it).  The constructors
`solverUpdateResourceOffer` and `solverRemoveResourceOffer` stand for the
solver facade's offer-mutating calls other than add-offer: the embedded
code never emits them, and having them in the alphabet lets the frame
claims state that fact. -/
inductive RPAction where
  | solverGetDeals (q : GetDealsQuery)
  | solverGetResourceOffers (q : GetResourceOffersQuery)
  | solverAddResourceOffer (offer : ResourceOffer)
  | solverUpdateResourceOffer (offer : ResourceOffer)
  | solverRemoveResourceOffer (id : String)
  | ledgerAgree (deal : Deal)
  | logSolverEvent
  | logDeal (title : String) (deal : Deal)
  | logOffer (title : String) (offer : ResourceOffer)
  | logInfo (title : String)
  | logError (title : String)
  | logDebug (title : String)
deriving DecidableEq, Repr

/-- Oracle answers of the solver facade for one reconciliation cycle: what
`GetDeals`, `GetResourceOffers` and `AddResourceOffer` return when called
with the given arguments. -/
structure SolverEnv where
  getDeals : GetDealsQuery → Except Err (List Deal)
  getResourceOffers : GetResourceOffersQuery → Except Err (List ResourceOfferContainer)
  addResourceOffer : ResourceOffer → Except Err String

/-- The query `agreeToDeals` sends: deals for this provider in state
`DealNegotiating`. -/
def dealsQuery (ctl : Controller) : GetDealsQuery :=
  { resourceProvider := ctl.selfAddress, state := "DealNegotiating" }

/-- Embedding of `agreeToDeals` (resourceprovidercontroller.go).  It queries
the solver for negotiating deals addressed to this provider; on a query
error it returns that error; on an empty result it returns nil; otherwise
it loops over the deals logging each one.  The on-ledger agree submission
is commented out in the source
(`// tx, err := controller.web3SDK.Contracts.Controller.Agree()`), so the
loop body performs only the `system.Info` log, and the final `return err`
returns the (nil) query error. -/
def agreeToDeals (ctl : Controller) (env : SolverEnv) : List RPAction × Option Err :=
  match env.getDeals (dealsQuery ctl) with
  | .error e => ([.solverGetDeals (dealsQuery ctl)], some e)
  | .ok negotiatingDeals =>
    if negotiatingDeals.length ≤ 0 then
      ([.solverGetDeals (dealsQuery ctl)], none)
    else
      (.solverGetDeals (dealsQuery ctl)
        :: negotiatingDeals.map (fun deal => RPAction.logDeal "agree to deal" deal),
       none)

/-- Embedding of `getResourceOffer`: builds the offer for one catalogue
position.  `nowNanos` is `time.Now().UnixNano()`; the source sets
`CreatedAt` to `int(time.Now().UnixNano() / int64(time.Millisecond))`,
i.e. nanoseconds divided by 1000000. -/
def getResourceOffer (ctl : Controller) (nowNanos : Nat) (index : Int)
    (spec : MachineSpec) : ResourceOffer :=
  { createdAt := nowNanos / 1000000
    resourceProvider := ctl.selfAddress
    index := index
    spec := spec
    modules := ctl.options.offers.modules
    mode := ctl.options.offers.mode
    defaultPricing := ctl.options.offers.defaultPricing
    defaultTimeouts := ctl.options.offers.defaultTimeouts
    modulePricing := []
    moduleTimeouts := []
    trustedParties := ctl.options.offers.trustedParties }

/-- The query `ensureResourceOffers` sends: this provider's active offers. -/
def offersQuery (ctl : Controller) : GetResourceOffersQuery :=
  { resourceProvider := ctl.selfAddress, active := true }

/-- Membership test of the `existingResourceOffersMap` the source builds:
the map is keyed by `ResourceOffer.Index` over the active offers, and the
loop only consults key membership (`_, ok := existingResourceOffersMap[index]`),
which holds exactly when some active container carries that index. -/
def existingIndexCovered (active : List ResourceOfferContainer) (index : Int) : Bool :=
  active.any (fun c => c.resourceOffer.index == index)

/-- Embedding of the `for index, spec := range controller.options.Offers.Specs`
loop of `ensureResourceOffers`: walking the catalogue with a running
position, it appends a freshly built offer for every position whose index
is not covered by an active offer. -/
def collectMissing (ctl : Controller) (nowNanos : Nat)
    (active : List ResourceOfferContainer) : Nat → List MachineSpec → List ResourceOffer
  | _, [] => []
  | index, spec :: rest =>
    (if existingIndexCovered active (Int.ofNat index) then []
     else [getResourceOffer ctl nowNanos (Int.ofNat index) spec])
      ++ collectMissing ctl nowNanos active (index + 1) rest

/-- The `addResourceOffers` list the source accumulates before submitting:
the missing offers, in catalogue order. -/
def missingResourceOffers (ctl : Controller) (nowNanos : Nat)
    (active : List ResourceOfferContainer) : List ResourceOffer :=
  collectMissing ctl nowNanos active 0 ctl.options.offers.specs

/-- Embedding of the submission loop of `ensureResourceOffers`: for each
offer, log it and call `AddResourceOffer`; the first error is returned at
once and stops the loop. -/
def addOffersLoop (env : SolverEnv) : List ResourceOffer → List RPAction × Option Err
  | [] => ([], none)
  | offer :: rest =>
    match env.addResourceOffer offer with
    | .error e =>
      ([.logOffer "add resource offer" offer, .solverAddResourceOffer offer], some e)
    | .ok _ =>
      let r := addOffersLoop env rest
      (.logOffer "add resource offer" offer :: .solverAddResourceOffer offer :: r.1, r.2)

/-- Embedding of `ensureResourceOffers`: query the active offers (returning
the error on failure), compute the missing offers from the snapshot, then
submit them in order.  On the all-successful path the final `return err`
returns the outer (nil) query error, because the `err` inside the add loop
is a fresh short-variable declaration shadowing it. -/
def ensureResourceOffers (ctl : Controller) (env : SolverEnv)
    (nowNanos : Nat) : List RPAction × Option Err :=
  match env.getResourceOffers (offersQuery ctl) with
  | .error e => ([.solverGetResourceOffers (offersQuery ctl)], some e)
  | .ok activeResourceOffers =>
    let r := addOffersLoop env (missingResourceOffers ctl nowNanos activeResourceOffers)
    (.solverGetResourceOffers (offersQuery ctl) :: r.1, r.2)

/-- Embedding of `solve`: debug log, then `agreeToDeals`; on its error stop
and return it; otherwise run `ensureResourceOffers` and return its result. -/
def solve (ctl : Controller) (env : SolverEnv) (nowNanos : Nat) :
    List RPAction × Option Err :=
  match agreeToDeals ctl env with
  | (tr, some e) => (.logDebug "solving" :: tr, some e)
  | (tr, none) =>
    let r := ensureResourceOffers ctl env nowNanos
    (.logDebug "solving" :: (tr ++ r.1), r.2)

/-- One observable event of the reconciliation loop goroutine of `Start`:
a completed cycle (with the full trace and result of that cycle's `solve`),
a completed 1-second sleep, the forwarding of a fatal error on the error
channel, or the exit taken when `ctx.Done()` is observed in the `select`. -/
inductive LoopEvent where
  | cycleRun (i : Nat) (actions : List RPAction) (result : Option Err)
  | sleepDone (i : Nat)
  | errorEmitted (e : Err)
  | cancelledExit (i : Nat)
deriving DecidableEq, Repr

/-- Embedding of the loop goroutine of `Start`, from cycle number `i` with
`fuel` remaining observation steps (the Go loop is infinite; `fuel`
truncates to a finite prefix of its behaviour).  Per iteration: run
`solve`; on an error, log it, send it on the error channel and return (the
caller is contractually reading the channel, so the send completes and is
recorded as `errorEmitted`); otherwise `select` between the 1-second timer
and `ctx.Done()`.  `cancelAt = some i` means cancellation is observed at
the select following cycle `i` — covering both arrival during the sleep
and arrival before the next tick; `ctx` is consulted nowhere else, so a
cycle in flight always runs to completion first. -/
def loopFrom (ctl : Controller) (env : Nat → SolverEnv) (now : Nat → Nat)
    (cancelAt : Option Nat) : Nat → Nat → List LoopEvent
  | _, 0 => []
  | i, fuel + 1 =>
    match (solve ctl (env i) (now i)).2 with
    | some e => [.cycleRun i (solve ctl (env i) (now i)).1 (some e), .errorEmitted e]
    | none =>
      if cancelAt = some i then
        [.cycleRun i (solve ctl (env i) (now i)).1 none, .cancelledExit i]
      else
        .cycleRun i (solve ctl (env i) (now i)).1 none
          :: .sleepDone i
          :: loopFrom ctl env now cancelAt (i + 1) fuel

/-- The loop trace from its start (cycle 0). -/
def loopRun (ctl : Controller) (env : Nat → SolverEnv) (now : Nat → Nat)
    (cancelAt : Option Nat) (fuel : Nat) : List LoopEvent :=
  loopFrom ctl env now cancelAt 0 fuel

/-- Embedding of the callback registered by `subscribeToSolver`: it logs
every event (`ServiceLogSolverEvent`); for a `DealAdded` event with a nil
deal it logs the "RP received nil deal" error and returns; for a deal
addressed to another provider it returns; for a deal addressed to this
provider it falls through the checks and returns (the agreement itself is
left to the polling cycle).  The handler is a total function into a list
of log actions: it never panics, never calls the solver or the ledger, and
returns no error to its caller. -/
def solverEventHandler (selfAddress : String) (ev : SolverEvent) : List RPAction :=
  RPAction.logSolverEvent ::
    (if ev.eventType = SolverEventType.dealAdded then
      match ev.deal with
      | none => [RPAction.logError "solver event"]
      | some deal =>
        if deal.resourceProvider ≠ selfAddress then [] else []
    else [])

/-- The two fallible setup steps of `Start` whose results come from the
external facades: `solverClient.Start` and `web3Events.Start`.  The two
subscription steps (`subscribeToSolver`, `subscribeToWeb3`) appear below as
constants because their Go bodies unconditionally `return nil`. -/
structure SetupEnv where
  solverClientStart : Option Err
  web3EventsStart : Option Err

/-- Result of `subscribeToSolver`: the source registers the callback and
unconditionally returns nil. -/
def subscribeToSolverSetupResult : Option Err := none

/-- Result of `subscribeToWeb3`: the source registers the callback and
unconditionally returns nil. -/
def subscribeToWeb3SetupResult : Option Err := none

/-- What the call of `Start` itself does, under Go channel semantics.
`Start` begins with `errorChan := make(chan error)` — an unbuffered
channel — and each failing setup step executes `errorChan <- err` before
`return errorChan`.  A send on an unbuffered channel completes only when
another goroutine is receiving on it; at that point no other goroutine can
hold `errorChan` (the value has not yet escaped `Start`), so the send can
never complete: `Start` blocks forever and never returns, which `blocked`
records.  If all four setup steps succeed, `Start` spawns the loop
goroutine and returns the channel (`started`). -/
inductive StartResult where
  | blocked (e : Err)
  | started
deriving DecidableEq, Repr

/-- Embedding of the setup phase of `Start`: the four steps in source
order, each failing step diverting to the blocked error send. -/
def startController (env : SetupEnv) : StartResult :=
  match subscribeToSolverSetupResult with
  | some e => .blocked e
  | none =>
    match subscribeToWeb3SetupResult with
    | some e => .blocked e
    | none =>
      match env.solverClientStart with
      | some e => .blocked e
      | none =>
        match env.web3EventsStart with
        | some e => .blocked e
        | none => .started

/-- Embedding of `Start` as a whole: the setup phase, and the loop trace —
which exists only when setup succeeded, because the loop goroutine is
spawned after the last fallible setup step. -/
def startRun (ctl : Controller) (setupEnv : SetupEnv) (env : Nat → SolverEnv)
    (now : Nat → Nat) (cancelAt : Option Nat) (fuel : Nat) :
    StartResult × List LoopEvent :=
  match startController setupEnv with
  | .blocked e => (.blocked e, [])
  | .started => (.started, loopRun ctl env now cancelAt fuel)

/-- The add-offer calls of a trace, in order, with their submitted offers. -/
def addCallsOf (tr : List RPAction) : List ResourceOffer :=
  tr.filterMap (fun a =>
    match a with
    | .solverAddResourceOffer offer => some offer
    | _ => none)

/-- Whether a loop event is the forwarding of an error on the channel. -/
def isErrorEmittedB (ev : LoopEvent) : Bool :=
  match ev with
  | .errorEmitted _ => true
  | _ => false

/-- Whether an action is a pure log (no solver call, no ledger call, no
state change). -/
def isLogActionB (a : RPAction) : Bool :=
  match a with
  | .logSolverEvent => true
  | .logDeal _ _ => true
  | .logOffer _ _ => true
  | .logInfo _ => true
  | .logError _ => true
  | .logDebug _ => true
  | _ => false

/-- Whether an action is an on-ledger agree submission. -/
def isLedgerAgreeB (a : RPAction) : Bool :=
  match a with
  | .ledgerAgree _ => true
  | _ => false

/-- The trace of `k` successful cycles starting at cycle `b`: each cycle
event followed by its completed sleep. -/
def okCyclesTrace (ctl : Controller) (env : Nat → SolverEnv) (now : Nat → Nat) :
    Nat → Nat → List LoopEvent
  | _, 0 => []
  | b, k + 1 =>
    LoopEvent.cycleRun b (solve ctl (env b) (now b)).1 none
      :: LoopEvent.sleepDone b :: okCyclesTrace ctl env now (b + 1) k

/-- Checks that the 1-second wait only ever occurs immediately after a
successfully completed cycle (and in particular never opens the trace):
a `sleepDone` may only appear as the successor of a `cycleRun` of the same
cycle number with a nil result. -/
def waitsOnlyAfterCycles : List LoopEvent → Bool
  | [] => true
  | .sleepDone _ :: _ => false
  | .cycleRun i _ none :: .sleepDone j :: rest =>
    i == j && waitsOnlyAfterCycles rest
  | _ :: rest => waitsOnlyAfterCycles rest

/-- Builds a solver environment from fixed answers (test fixture). -/
def mkEnv (deals : Except Err (List Deal))
    (offers : Except Err (List ResourceOfferContainer))
    (add : ResourceOffer → Except Err String) : SolverEnv :=
  { getDeals := fun _ => deals
    getResourceOffers := fun _ => offers
    addResourceOffer := add }

/-- Fixture: catalogue entry A. -/
def specA : MachineSpec := { tag := 0 }

/-- Fixture: catalogue entry B. -/
def specB : MachineSpec := { tag := 1 }

/-- Fixture: a controller with a two-entry catalogue. -/
def ctlEx : Controller :=
  { selfAddress := "0xRP"
    options :=
      { offers :=
          { specs := [specA, specB]
            modules := ["module-a"]
            mode := "market"
            defaultPricing := { tag := 7 }
            defaultTimeouts := { tag := 8 }
            trustedParties := ["0xTrusted"] } } }

/-- Fixture: a negotiating deal addressed to this provider. -/
def dealEx : Deal :=
  { id := "deal-1", resourceProvider := "0xRP", state := "DealNegotiating" }

/-- Fixture: an active offer container covering the given index. -/
def containerAt (idx : Int) : ResourceOfferContainer :=
  { id := "container", resourceOffer := getResourceOffer ctlEx 0 idx specA }

/-- Fixture: every call succeeds and both catalogue indices are already
covered, so a cycle is a no-op. -/
def envAllOk : SolverEnv :=
  mkEnv (.ok []) (.ok [containerAt 0, containerAt 1]) (fun _ => .ok "offer-id")

/-- Fixture: the deals query fails. -/
def envDealsFail : SolverEnv :=
  mkEnv (.error "deals query failed") (.ok [containerAt 0, containerAt 1])
    (fun _ => .ok "offer-id")

/-- Fixture: the active-offers query fails. -/
def envOffersFail : SolverEnv :=
  mkEnv (.ok []) (.error "offers query failed") (fun _ => .ok "offer-id")

/-- Fixture: one negotiating deal is returned; everything else succeeds. -/
def envOneDeal : SolverEnv :=
  mkEnv (.ok [dealEx]) (.ok [containerAt 0, containerAt 1]) (fun _ => .ok "offer-id")

/-- Fixture: index 0 is covered, index 1 is missing, adds succeed
(spec Scenario B). -/
def envOneMissing : SolverEnv :=
  mkEnv (.ok []) (.ok [containerAt 0]) (fun _ => .ok "offer-id")

/-- Fixture: nothing is covered and the submission of the offer at
index 1 fails (the offer at index 0 is accepted first). -/
def envAddFails : SolverEnv :=
  mkEnv (.ok []) (.ok [])
    (fun offer => if offer.index == 1 then .error "add failed" else .ok "offer-id")

/-- Fixture: per-cycle environments where cycle 0 succeeds and every later
cycle fails its deals query. -/
def envSeqFailAt1 (i : Nat) : SolverEnv :=
  if i = 0 then envAllOk else envDealsFail

/-- Fixture: a constant clock (1234000000 ns, i.e. 1234 ms). -/
def nowEx (i : Nat) : Nat := 1234000000 + i

/-- Fixture: all setup steps of `Start` succeed. -/
def setupOk : SetupEnv := { solverClientStart := none, web3EventsStart := none }

/-- Fixture: `web3Events.Start` fails during setup. -/
def setupWeb3Fails : SetupEnv :=
  { solverClientStart := none, web3EventsStart := some "web3 events start failed" }

/-- Helper: an offer submitted by the add loop is one of the offers it was
given. -/
theorem mem_addCallsOf_addOffersLoop (env : SolverEnv) (offers : List ResourceOffer)
    (offer : ResourceOffer) (h : offer ∈ addCallsOf (addOffersLoop env offers).1) :
    offer ∈ offers := by
  induction offers with
  | nil => simp [addOffersLoop, addCallsOf] at h
  | cons o rest ih =>
    rw [addOffersLoop] at h
    cases hadd : env.addResourceOffer o with
    | error e =>
      rw [hadd] at h
      simp [addCallsOf] at h
      simp [h]
    | ok id =>
      rw [hadd] at h
      simp [addCallsOf] at h
      rcases h with h | h
      · simp [h]
      · exact List.mem_cons_of_mem o (ih (by simpa [addCallsOf] using h))

/-- Helper: every offer collected by the catalogue walk starting at
position `b` is built by `getResourceOffer` from a catalogue entry at some
absolute position `b + j`, and only for uncovered indices. -/
theorem mem_collectMissing (ctl : Controller) (nowNanos : Nat)
    (active : List ResourceOfferContainer) (l : List MachineSpec) (b : Nat)
    (offer : ResourceOffer) (h : offer ∈ collectMissing ctl nowNanos active b l) :
    ∃ j spec, l[j]? = some spec
      ∧ offer = getResourceOffer ctl nowNanos (Int.ofNat (b + j)) spec
      ∧ existingIndexCovered active (Int.ofNat (b + j)) = false := by
  induction l generalizing b with
  | nil => simp [collectMissing] at h
  | cons s rest ih =>
    rw [collectMissing] at h
    cases hc : existingIndexCovered active (Int.ofNat b) with
    | true =>
      rw [hc] at h
      simp only [if_pos rfl, List.nil_append] at h
      rcases ih (b + 1) h with ⟨j, spec, hget, hoffer, hcov⟩
      refine ⟨j + 1, spec, by simpa using hget, ?_, ?_⟩
      · simpa [Nat.add_assoc, Nat.add_comm 1 j] using hoffer
      · simpa [Nat.add_assoc, Nat.add_comm 1 j] using hcov
    | false =>
      rw [hc] at h
      simp only [Bool.false_eq_true, if_neg, List.singleton_append] at h
      rcases List.mem_cons.mp h with h1 | h2
      · exact ⟨0, s, by simp, by simpa using h1, by simpa using hc⟩
      · rcases ih (b + 1) h2 with ⟨j, spec, hget, hoffer, hcov⟩
        refine ⟨j + 1, spec, by simpa using hget, ?_, ?_⟩
        · simpa [Nat.add_assoc, Nat.add_comm 1 j] using hoffer
        · simpa [Nat.add_assoc, Nat.add_comm 1 j] using hcov

/-- Helper: the add-offer calls of `ensureResourceOffers` all come from the
missing-offer list computed from the snapshot. -/
theorem mem_addCallsOf_ensure (ctl : Controller) (env : SolverEnv) (nowNanos : Nat)
    (offer : ResourceOffer)
    (h : offer ∈ addCallsOf (ensureResourceOffers ctl env nowNanos).1) :
    ∃ active, env.getResourceOffers (offersQuery ctl) = .ok active
      ∧ offer ∈ missingResourceOffers ctl nowNanos active := by
  rw [ensureResourceOffers] at h
  cases hq : env.getResourceOffers (offersQuery ctl) with
  | error e => rw [hq] at h; simp [addCallsOf] at h
  | ok active =>
    rw [hq] at h
    simp only [addCallsOf, List.filterMap_cons] at h
    exact ⟨active, rfl,
      mem_addCallsOf_addOffersLoop env _ offer (by simpa [addCallsOf] using h)⟩

/-- Helper: the trace equation of `agreeToDeals` when the deals query
fails. -/
theorem agreeToDeals_error_eq (ctl : Controller) (env : SolverEnv) (e : Err)
    (h : env.getDeals (dealsQuery ctl) = .error e) :
    agreeToDeals ctl env = ([.solverGetDeals (dealsQuery ctl)], some e) := by
  simp [agreeToDeals, h]

/-- Helper: the trace equation of `agreeToDeals` when the deals query
succeeds: the query action, then one log per returned deal, nil result. -/
theorem agreeToDeals_ok_eq (ctl : Controller) (env : SolverEnv) (ds : List Deal)
    (h : env.getDeals (dealsQuery ctl) = .ok ds) :
    agreeToDeals ctl env =
      (.solverGetDeals (dealsQuery ctl)
        :: ds.map (fun d => RPAction.logDeal "agree to deal" d), none) := by
  cases ds with
  | nil => simp [agreeToDeals, h]
  | cons d rest => simp [agreeToDeals, h]

/-- C1: counterexample.  With a solver environment returning exactly one
negotiating deal addressed to this provider, `agreeToDeals` issues zero
on-ledger agree actions (and returns nil), refuting the claim that it
issues the agree action exactly once for each returned negotiating deal:
the agree submission in the source is commented out. -/
theorem C1_agree_counterexample :
    envOneDeal.getDeals (dealsQuery ctlEx) = Except.ok [dealEx]
    ∧ dealEx.state = "DealNegotiating"
    ∧ dealEx.resourceProvider = ctlEx.selfAddress
    ∧ (agreeToDeals ctlEx envOneDeal).1.countP isLedgerAgreeB = 0
    ∧ (agreeToDeals ctlEx envOneDeal).2 = none := by
  refine ⟨rfl, rfl, rfl, ?_, rfl⟩
  decide

/-- C1 (amended): `agreeToDeals` queries the solver exactly with
`state = DealNegotiating` and `resourceProvider` = the provider's own
address; on a query error it returns that error having processed no deals;
on a query success it returns nil having logged each returned deal exactly
once, in order — and in every case it issues no on-ledger agree action,
because the agree submission is stubbed out in the source. -/
theorem C1_agreeToDeals_amended (ctl : Controller) (env : SolverEnv) :
    dealsQuery ctl = { resourceProvider := ctl.selfAddress, state := "DealNegotiating" }
    ∧ (∀ e, env.getDeals (dealsQuery ctl) = .error e →
        agreeToDeals ctl env = ([.solverGetDeals (dealsQuery ctl)], some e))
    ∧ (∀ ds, env.getDeals (dealsQuery ctl) = .ok ds →
        agreeToDeals ctl env =
          (.solverGetDeals (dealsQuery ctl)
            :: ds.map (fun d => RPAction.logDeal "agree to deal" d), none))
    ∧ (∀ a ∈ (agreeToDeals ctl env).1, isLedgerAgreeB a = false) := by
  refine ⟨rfl, ?_, ?_, ?_⟩
  · intro e he
    exact agreeToDeals_error_eq ctl env e he
  · intro ds hds
    exact agreeToDeals_ok_eq ctl env ds hds
  · intro a ha
    cases hq : env.getDeals (dealsQuery ctl) with
    | error e =>
      rw [agreeToDeals_error_eq ctl env e hq] at ha
      simp at ha
      simp [ha, isLedgerAgreeB]
    | ok ds =>
      rw [agreeToDeals_ok_eq ctl env ds hq] at ha
      simp at ha
      rcases ha with ha | ⟨d, _, ha⟩
      · simp [ha, isLedgerAgreeB]
      · simp [← ha, isLedgerAgreeB]

/-- C1 (amended), witness: at the one-deal fixture, the amended theorem
yields the concrete trace — the query, one log of the deal, no ledger
action, nil result. -/
theorem C1_agreeToDeals_amended_witness :
    agreeToDeals ctlEx envOneDeal =
      ([.solverGetDeals (dealsQuery ctlEx), .logDeal "agree to deal" dealEx], none) := by
  have h := (C1_agreeToDeals_amended ctlEx envOneDeal).2.2.1 [dealEx] rfl
  simpa using h

/-- C5: every resource offer submitted by `ensureResourceOffers` is built
by `getResourceOffer` for some catalogue position: its `index` is the
catalogue position, its `spec` the catalogue entry at that position, its
`createdAt` the current time in milliseconds (nanoseconds / 1000000), its
provider the controller's own address, its `modules`, `mode`, default
pricing, default timeouts and trusted parties copied verbatim from the
configuration, and its per-module pricing and timeout overrides empty. -/
theorem C5_offer_construction (ctl : Controller) (env : SolverEnv) (nowNanos : Nat)
    (offer : ResourceOffer)
    (hmem : offer ∈ addCallsOf (ensureResourceOffers ctl env nowNanos).1) :
    ∃ n spec, ctl.options.offers.specs[n]? = some spec
      ∧ offer = getResourceOffer ctl nowNanos (Int.ofNat n) spec
      ∧ offer.index = Int.ofNat n
      ∧ offer.spec = spec
      ∧ offer.createdAt = nowNanos / 1000000
      ∧ offer.resourceProvider = ctl.selfAddress
      ∧ offer.modules = ctl.options.offers.modules
      ∧ offer.mode = ctl.options.offers.mode
      ∧ offer.defaultPricing = ctl.options.offers.defaultPricing
      ∧ offer.defaultTimeouts = ctl.options.offers.defaultTimeouts
      ∧ offer.trustedParties = ctl.options.offers.trustedParties
      ∧ offer.modulePricing = []
      ∧ offer.moduleTimeouts = [] := by
  rcases mem_addCallsOf_ensure ctl env nowNanos offer hmem with ⟨active, _, hmiss⟩
  rcases mem_collectMissing ctl nowNanos active ctl.options.offers.specs 0 offer hmiss
    with ⟨j, spec, hget, hoffer, _⟩
  refine ⟨j, spec, by simpa using hget, by simpa using hoffer, ?_⟩
  subst hoffer
  simp [getResourceOffer]

/-- C5, witness: with index 0 covered and index 1 missing, the submitted
offer for position 1 satisfies every clause of the construction theorem. -/
theorem C5_offer_construction_witness :
    (getResourceOffer ctlEx 1234000000 (Int.ofNat 1) specB
        ∈ addCallsOf (ensureResourceOffers ctlEx envOneMissing 1234000000).1)
    ∧ (∃ n spec, ctlEx.options.offers.specs[n]? = some spec
        ∧ getResourceOffer ctlEx 1234000000 (Int.ofNat 1) specB
            = getResourceOffer ctlEx 1234000000 (Int.ofNat n) spec
        ∧ (getResourceOffer ctlEx 1234000000 (Int.ofNat 1) specB).index = Int.ofNat n
        ∧ (getResourceOffer ctlEx 1234000000 (Int.ofNat 1) specB).spec = spec
        ∧ (getResourceOffer ctlEx 1234000000 (Int.ofNat 1) specB).createdAt
            = 1234000000 / 1000000
        ∧ (getResourceOffer ctlEx 1234000000 (Int.ofNat 1) specB).resourceProvider
            = ctlEx.selfAddress
        ∧ (getResourceOffer ctlEx 1234000000 (Int.ofNat 1) specB).modules
            = ctlEx.options.offers.modules
        ∧ (getResourceOffer ctlEx 1234000000 (Int.ofNat 1) specB).mode
            = ctlEx.options.offers.mode
        ∧ (getResourceOffer ctlEx 1234000000 (Int.ofNat 1) specB).defaultPricing
            = ctlEx.options.offers.defaultPricing
        ∧ (getResourceOffer ctlEx 1234000000 (Int.ofNat 1) specB).defaultTimeouts
            = ctlEx.options.offers.defaultTimeouts
        ∧ (getResourceOffer ctlEx 1234000000 (Int.ofNat 1) specB).trustedParties
            = ctlEx.options.offers.trustedParties
        ∧ (getResourceOffer ctlEx 1234000000 (Int.ofNat 1) specB).modulePricing = []
        ∧ (getResourceOffer ctlEx 1234000000 (Int.ofNat 1) specB).moduleTimeouts = []) :=
  ⟨by decide, C5_offer_construction ctlEx envOneMissing 1234000000 _ (by decide)⟩

/-- C8: the solver-event handler registered by `subscribeToSolver` logs
every event; for a deal-added event with no deal payload it logs an error
and returns normally, taking no further action; for a deal addressed to a
different provider it does nothing beyond the unconditional event log; and
in every case each action it performs is a log — it never calls the solver
or the ledger and changes no reconciliation state, and being a total
function into log actions it neither panics nor propagates an error. -/
theorem C8_solver_event_handler (selfAddress : String) (ev : SolverEvent) :
    (ev.eventType = SolverEventType.dealAdded → ev.deal = none →
        solverEventHandler selfAddress ev
          = [RPAction.logSolverEvent, RPAction.logError "solver event"])
    ∧ (∀ d, ev.eventType = SolverEventType.dealAdded → ev.deal = some d →
        d.resourceProvider ≠ selfAddress →
        solverEventHandler selfAddress ev = [RPAction.logSolverEvent])
    ∧ (∀ a ∈ solverEventHandler selfAddress ev, isLogActionB a = true) := by
  refine ⟨?_, ?_, ?_⟩
  · intro hty hdeal
    simp [solverEventHandler, hty, hdeal]
  · intro d hty hdeal hne
    simp [solverEventHandler, hty, hdeal, hne]
  · intro a ha
    rw [solverEventHandler] at ha
    rcases List.mem_cons.mp ha with h | h
    · simp [h, isLogActionB]
    · by_cases hty : ev.eventType = SolverEventType.dealAdded
      · rw [if_pos hty] at h
        cases hdeal : ev.deal with
        | none =>
          rw [hdeal] at h
          simp at h
          simp [h, isLogActionB]
        | some d =>
          rw [hdeal] at h
          by_cases hne : d.resourceProvider ≠ selfAddress
          · simp [hne] at h
          · simp [hne] at h
      · rw [if_neg hty] at h
        simp at h

/-- C8, witness: a deal-added event with a nil deal payload yields exactly
the unconditional event log followed by the error log. -/
theorem C8_solver_event_handler_witness :
    solverEventHandler "0xRP" { eventType := SolverEventType.dealAdded, deal := none }
      = [RPAction.logSolverEvent, RPAction.logError "solver event"] :=
  (C8_solver_event_handler "0xRP"
    { eventType := SolverEventType.dealAdded, deal := none }).1 rfl rfl

/-- Helper: when every submission succeeds, the add loop submits exactly
the offers it was given, in order, and returns nil. -/
theorem addOffersLoop_allOk (env : SolverEnv) (offers : List ResourceOffer)
    (h : ∀ o ∈ offers, ∃ id, env.addResourceOffer o = .ok id) :
    addCallsOf (addOffersLoop env offers).1 = offers
    ∧ (addOffersLoop env offers).2 = none := by
  induction offers with
  | nil => exact ⟨rfl, rfl⟩
  | cons o rest ih =>
    rcases h o (List.mem_cons_self o rest) with ⟨id, hid⟩
    have ihr := ih (fun o' ho' => h o' (List.mem_cons_of_mem o ho'))
    rw [addOffersLoop, hid]
    constructor
    · simpa [addCallsOf] using ihr.1
    · simpa using ihr.2

/-- Helper: the number of collected offers carrying catalogue index `n`,
walking the catalogue from absolute position `b`: one if `n` is a position
of the walked segment and uncovered, zero otherwise. -/
theorem countP_collectMissing (ctl : Controller) (nowNanos : Nat)
    (active : List ResourceOfferContainer) (l : List MachineSpec) (b n : Nat) :
    (collectMissing ctl nowNanos active b l).countP
        (fun o => o.index == Int.ofNat n)
      = if b ≤ n ∧ n < b + l.length
            ∧ existingIndexCovered active (Int.ofNat n) = false then 1 else 0 := by
  induction l generalizing b with
  | nil =>
    rw [collectMissing]
    simp only [List.countP_nil, List.length_nil]
    rw [eq_comm, if_neg]
    rintro ⟨h1, h2, h3⟩
    omega
  | cons s rest ih =>
    rw [collectMissing, List.countP_append, ih (b + 1), List.length_cons]
    by_cases hcn : existingIndexCovered active (Int.ofNat n) = false
    · by_cases hc : existingIndexCovered active (Int.ofNat b) = true
      · have hbn : b ≠ n := by
          intro h
          subst h
          rw [hc] at hcn
          exact absurd hcn (by simp)
        have hiff : (b + 1 ≤ n ∧ n < b + 1 + rest.length
              ∧ existingIndexCovered active (Int.ofNat n) = false)
            ↔ (b ≤ n ∧ n < b + (rest.length + 1)
              ∧ existingIndexCovered active (Int.ofNat n) = false) := by
          constructor
          · rintro ⟨u, v, w⟩
            exact ⟨by omega, by omega, w⟩
          · rintro ⟨u, v, w⟩
            exact ⟨by omega, by omega, w⟩
        rw [if_pos hc]
        simp only [List.countP_nil, Nat.zero_add, hiff]
      · rw [if_neg hc, List.countP_singleton]
        have hcf : existingIndexCovered active (Int.ofNat b) = false := by
          rwa [Bool.not_eq_true] at hc
        by_cases hbn : b = n
        · subst hbn
          have hbeq : ((getResourceOffer ctl nowNanos (Int.ofNat b) s).index
              == Int.ofNat b) = true := by
            simp [getResourceOffer]
          rw [hbeq, if_pos rfl, if_neg (by rintro ⟨u, v, w⟩; omega),
            if_pos ⟨Nat.le_refl b, by omega, hcn⟩]
        · have hbeq : ((getResourceOffer ctl nowNanos (Int.ofNat b) s).index
              == Int.ofNat n) = false := by
            simp [getResourceOffer]
            omega
          rw [hbeq]
          simp only [Bool.false_eq_true, if_false, Nat.zero_add]
          by_cases hrange : b + 1 ≤ n ∧ n < b + 1 + rest.length
              ∧ existingIndexCovered active (Int.ofNat n) = false
          · rw [if_pos hrange, if_pos ⟨by omega, by omega, hrange.2.2⟩]
          · rw [if_neg hrange, if_neg (fun hcon => hrange ⟨by omega, by omega, hcon.2.2⟩)]
    · rw [Bool.not_eq_false] at hcn
      have h1 : ¬(b + 1 ≤ n ∧ n < b + 1 + rest.length
          ∧ existingIndexCovered active (Int.ofNat n) = false) := by
        rintro ⟨u, v, w⟩
        rw [hcn] at w
        exact absurd w (by simp)
      have h2 : ¬(b ≤ n ∧ n < b + (rest.length + 1)
          ∧ existingIndexCovered active (Int.ofNat n) = false) := by
        rintro ⟨u, v, w⟩
        rw [hcn] at w
        exact absurd w (by simp)
      by_cases hc : existingIndexCovered active (Int.ofNat b) = true
      · rw [if_pos hc, if_neg h1, if_neg h2]
        simp
      · have hcf : existingIndexCovered active (Int.ofNat b) = false := by
          rwa [Bool.not_eq_true] at hc
        have hbn : b ≠ n := by
          intro h
          subst h
          rw [hcf] at hcn
          exact absurd hcn (by simp)
        have hbeq : ((getResourceOffer ctl nowNanos (Int.ofNat b) s).index
            == Int.ofNat n) = false := by
          simp [getResourceOffer]
          omega
        rw [if_neg hc, if_neg h1, if_neg h2, List.countP_singleton, hbeq]
        simp

/-- Helper: when every walked catalogue position is covered by an active
offer, the walk collects nothing. -/
theorem collectMissing_nil_of_covered (ctl : Controller) (nowNanos : Nat)
    (active : List ResourceOfferContainer) (l : List MachineSpec) (b : Nat)
    (h : ∀ j, j < l.length → existingIndexCovered active (Int.ofNat (b + j)) = true) :
    collectMissing ctl nowNanos active b l = [] := by
  induction l generalizing b with
  | nil => rfl
  | cons s rest ih =>
    rw [collectMissing]
    have h0 : existingIndexCovered active (Int.ofNat b) = true := by
      simpa using h 0 (by simp)
    rw [h0]
    simp only [if_pos rfl, List.nil_append]
    exact ih (b + 1) (fun j hj => by
      have := h (j + 1) (by simpa using Nat.succ_lt_succ hj)
      simpa [Nat.add_assoc, Nat.add_comm 1 j] using this)

/-- C3: given a successful snapshot of active offers and successful
submissions, `ensureResourceOffers` issues exactly the missing offers as
add-offer calls, in catalogue order — exactly one call per uncovered
catalogue index, with the offer's `index` equal to the catalogue
position — and when every configured index is covered it issues zero
add-offer calls and returns success. -/
theorem C3_missing_offers_added (ctl : Controller) (env : SolverEnv) (nowNanos : Nat)
    (active : List ResourceOfferContainer)
    (hq : env.getResourceOffers (offersQuery ctl) = .ok active)
    (hadd : ∀ o ∈ missingResourceOffers ctl nowNanos active,
      ∃ id, env.addResourceOffer o = .ok id) :
    addCallsOf (ensureResourceOffers ctl env nowNanos).1
        = missingResourceOffers ctl nowNanos active
    ∧ (ensureResourceOffers ctl env nowNanos).2 = none
    ∧ (∀ n, n < ctl.options.offers.specs.length →
        (addCallsOf (ensureResourceOffers ctl env nowNanos).1).countP
            (fun o => o.index == Int.ofNat n)
          = if existingIndexCovered active (Int.ofNat n) = true then 0 else 1)
    ∧ ((∀ n, n < ctl.options.offers.specs.length →
          existingIndexCovered active (Int.ofNat n) = true) →
        addCallsOf (ensureResourceOffers ctl env nowNanos).1 = []
        ∧ (ensureResourceOffers ctl env nowNanos).2 = none) := by
  have hloop := addOffersLoop_allOk env (missingResourceOffers ctl nowNanos active) hadd
  have htr : ensureResourceOffers ctl env nowNanos
      = (RPAction.solverGetResourceOffers (offersQuery ctl)
          :: (addOffersLoop env (missingResourceOffers ctl nowNanos active)).1,
         (addOffersLoop env (missingResourceOffers ctl nowNanos active)).2) := by
    rw [ensureResourceOffers, hq]
  have haddcalls : addCallsOf (ensureResourceOffers ctl env nowNanos).1
      = missingResourceOffers ctl nowNanos active := by
    rw [htr]
    simpa [addCallsOf] using hloop.1
  refine ⟨haddcalls, by rw [htr]; exact hloop.2, ?_, ?_⟩
  · intro n hn
    rw [haddcalls, missingResourceOffers, countP_collectMissing]
    by_cases hcov : existingIndexCovered active (Int.ofNat n) = true
    · have hno : ¬(0 ≤ n ∧ n < 0 + ctl.options.offers.specs.length
          ∧ existingIndexCovered active (Int.ofNat n) = false) := by
        rintro ⟨u, v, w⟩
        rw [hcov] at w
        exact absurd w (by simp)
      rw [if_neg hno, if_pos hcov]
    · have hcf : existingIndexCovered active (Int.ofNat n) = false := by
        rwa [Bool.not_eq_true] at hcov
      rw [if_pos ⟨Nat.zero_le n, by omega, hcf⟩, if_neg hcov]
  · intro hall
    have hnil : missingResourceOffers ctl nowNanos active = [] := by
      rw [missingResourceOffers]
      exact collectMissing_nil_of_covered ctl nowNanos active _ 0
        (fun j hj => by simpa using hall j hj)
    exact ⟨by rw [haddcalls, hnil], by rw [htr]; exact hloop.2⟩

/-- C3, witness (spec Scenario B): catalogue of two entries, index 0
covered — exactly one add-offer call is issued, for position 1, and the
call count per index matches the covered/missing split. -/
theorem C3_missing_offers_added_witness :
    addCallsOf (ensureResourceOffers ctlEx envOneMissing 1234000000).1
        = missingResourceOffers ctlEx 1234000000 [containerAt 0]
    ∧ (ensureResourceOffers ctlEx envOneMissing 1234000000).2 = none := by
  have h := C3_missing_offers_added ctlEx envOneMissing 1234000000 [containerAt 0] rfl
    (fun o _ => ⟨"offer-id", rfl⟩)
  exact ⟨h.1, h.2.1⟩

/-- Helper: if the offers before position `j` are all accepted and the
offer at position `j` is rejected with `e`, the add loop submits exactly
the first `j + 1` offers and returns `e`. -/
theorem addOffersLoop_fail (env : SolverEnv) (offers : List ResourceOffer) (j : Nat)
    (oj : ResourceOffer) (e : Err)
    (hoj : offers[j]? = some oj)
    (hok : ∀ i, i < j → ∀ o, offers[i]? = some o →
      ∃ id, env.addResourceOffer o = .ok id)
    (hfail : env.addResourceOffer oj = .error e) :
    addCallsOf (addOffersLoop env offers).1 = offers.take (j + 1)
    ∧ (addOffersLoop env offers).2 = some e := by
  induction offers generalizing j with
  | nil => simp at hoj
  | cons o rest ih =>
    cases j with
    | zero =>
      have ho : o = oj := by simpa using hoj
      subst ho
      rw [addOffersLoop, hfail]
      exact ⟨by simp [addCallsOf], rfl⟩
    | succ j' =>
      rcases hok 0 (Nat.succ_pos j') o (by simp) with ⟨id, hid⟩
      have ihr := ih j' (by simpa using hoj)
        (fun i hi o' ho' =>
          hok (i + 1) (Nat.succ_lt_succ hi) o' (by simpa using ho'))
      rw [addOffersLoop, hid]
      refine ⟨?_, by simpa using ihr.2⟩
      have hcons : addCallsOf
          (RPAction.logOffer "add resource offer" o
            :: RPAction.solverAddResourceOffer o :: (addOffersLoop env rest).1)
          = o :: addCallsOf (addOffersLoop env rest).1 := by
        simp [addCallsOf]
      simp [hcons, ihr.1]

/-- C7: if the active-offers query fails, `ensureResourceOffers` returns
exactly that error having issued nothing but the query (zero add-offer
calls); if the query succeeds and the submission of the `j`-th missing
offer fails after the earlier ones succeeded, the cycle's add-offer calls
are exactly the first `j + 1` missing offers — the failing one is last,
the earlier ones remain submitted (no rollback action exists), and the
submission error is returned. -/
theorem C7_ensure_error_handling (ctl : Controller) (env : SolverEnv) (nowNanos : Nat) :
    (∀ e, env.getResourceOffers (offersQuery ctl) = .error e →
        ensureResourceOffers ctl env nowNanos
          = ([RPAction.solverGetResourceOffers (offersQuery ctl)], some e))
    ∧ (∀ active j oj e,
        env.getResourceOffers (offersQuery ctl) = .ok active →
        (missingResourceOffers ctl nowNanos active)[j]? = some oj →
        (∀ i, i < j → ∀ o, (missingResourceOffers ctl nowNanos active)[i]? = some o →
            ∃ id, env.addResourceOffer o = .ok id) →
        env.addResourceOffer oj = .error e →
        addCallsOf (ensureResourceOffers ctl env nowNanos).1
            = (missingResourceOffers ctl nowNanos active).take (j + 1)
        ∧ (ensureResourceOffers ctl env nowNanos).2 = some e) := by
  constructor
  · intro e he
    rw [ensureResourceOffers, he]
  · intro active j oj e hq hoj hok hfail
    have hloop := addOffersLoop_fail env (missingResourceOffers ctl nowNanos active)
      j oj e hoj hok hfail
    have htr : ensureResourceOffers ctl env nowNanos
        = (RPAction.solverGetResourceOffers (offersQuery ctl)
            :: (addOffersLoop env (missingResourceOffers ctl nowNanos active)).1,
           (addOffersLoop env (missingResourceOffers ctl nowNanos active)).2) := by
      rw [ensureResourceOffers, hq]
    exact ⟨by rw [htr]; simpa [addCallsOf] using hloop.1,
      by rw [htr]; exact hloop.2⟩

/-- C7, witness: with nothing covered and the submission of the offer at
position 1 failing, the cycle submits exactly the first two missing offers
(the accepted one at position 0 stays submitted, the failing one is last)
and returns the submission error. -/
theorem C7_ensure_error_handling_witness :
    addCallsOf (ensureResourceOffers ctlEx envAddFails 1234000000).1
        = (missingResourceOffers ctlEx 1234000000 []).take 2
    ∧ (ensureResourceOffers ctlEx envAddFails 1234000000).2 = some "add failed" := by
  refine (C7_ensure_error_handling ctlEx envAddFails 1234000000).2 [] 1
    (getResourceOffer ctlEx 1234000000 (Int.ofNat 1) specB) "add failed"
    rfl (by decide) ?_ rfl
  intro i hi o ho
  have hi0 : i = 0 := by omega
  subst hi0
  have ho' : (missingResourceOffers ctlEx 1234000000 [])[0]?
      = some (getResourceOffer ctlEx 1234000000 (Int.ofNat 0) specA) := by decide
  rw [ho'] at ho
  have hoo := Option.some.inj ho
  subst hoo
  exact ⟨"offer-id", rfl⟩

/-- Helper: every action of the add loop is either the submission of one
of the given offers or the log preceding such a submission. -/
theorem mem_addOffersLoop_actions (env : SolverEnv) (offers : List ResourceOffer)
    (a : RPAction) (h : a ∈ (addOffersLoop env offers).1) :
    (∃ o, o ∈ offers ∧ a = RPAction.solverAddResourceOffer o)
    ∨ (∃ o, o ∈ offers ∧ a = RPAction.logOffer "add resource offer" o) := by
  induction offers with
  | nil => simp [addOffersLoop] at h
  | cons o rest ih =>
    rw [addOffersLoop] at h
    cases hadd : env.addResourceOffer o with
    | error e =>
      rw [hadd] at h
      simp at h
      rcases h with h | h
      · exact Or.inr ⟨o, by simp, h⟩
      · exact Or.inl ⟨o, by simp, h⟩
    | ok id =>
      rw [hadd] at h
      simp at h
      rcases h with h | h | h
      · exact Or.inr ⟨o, by simp, h⟩
      · exact Or.inl ⟨o, by simp, h⟩
      · rcases ih h with ⟨o', ho', ha⟩ | ⟨o', ho', ha⟩
        · exact Or.inl ⟨o', by simp [ho'], ha⟩
        · exact Or.inr ⟨o', by simp [ho'], ha⟩

/-- C9: `ensureResourceOffers` only adds.  Given a successful snapshot,
every action of the cycle is the snapshot query, the submission of an
offer whose index is configured (within the catalogue) and not covered by
any active offer, or the log preceding such a submission; in particular no
offer-update call, no offer-removal call and no on-ledger action is ever
issued — every existing active offer, and every index absent from the
catalogue, is left untouched. -/
theorem C9_only_adds_missing (ctl : Controller) (env : SolverEnv) (nowNanos : Nat)
    (active : List ResourceOfferContainer)
    (hq : env.getResourceOffers (offersQuery ctl) = .ok active) :
    (∀ a ∈ (ensureResourceOffers ctl env nowNanos).1,
        a = RPAction.solverGetResourceOffers (offersQuery ctl)
        ∨ (∃ offer, a = RPAction.solverAddResourceOffer offer
            ∧ existingIndexCovered active offer.index = false
            ∧ ∃ n, n < ctl.options.offers.specs.length ∧ offer.index = Int.ofNat n)
        ∨ (∃ offer, a = RPAction.logOffer "add resource offer" offer))
    ∧ (∀ offer, RPAction.solverUpdateResourceOffer offer
        ∉ (ensureResourceOffers ctl env nowNanos).1)
    ∧ (∀ id, RPAction.solverRemoveResourceOffer id
        ∉ (ensureResourceOffers ctl env nowNanos).1)
    ∧ (∀ deal, RPAction.ledgerAgree deal
        ∉ (ensureResourceOffers ctl env nowNanos).1) := by
  have htr : ensureResourceOffers ctl env nowNanos
      = (RPAction.solverGetResourceOffers (offersQuery ctl)
          :: (addOffersLoop env (missingResourceOffers ctl nowNanos active)).1,
         (addOffersLoop env (missingResourceOffers ctl nowNanos active)).2) := by
    rw [ensureResourceOffers, hq]
  have hmain : ∀ a ∈ (ensureResourceOffers ctl env nowNanos).1,
      a = RPAction.solverGetResourceOffers (offersQuery ctl)
      ∨ (∃ offer, a = RPAction.solverAddResourceOffer offer
          ∧ existingIndexCovered active offer.index = false
          ∧ ∃ n, n < ctl.options.offers.specs.length ∧ offer.index = Int.ofNat n)
      ∨ (∃ offer, a = RPAction.logOffer "add resource offer" offer) := by
    intro a ha
    rw [htr] at ha
    rcases List.mem_cons.mp ha with h | h
    · exact Or.inl h
    · rcases mem_addOffersLoop_actions env _ a h with ⟨o, ho, ha'⟩ | ⟨o, ho, ha'⟩
      · refine Or.inr (Or.inl ⟨o, ha', ?_, ?_⟩)
        · rcases mem_collectMissing ctl nowNanos active _ 0 o ho
            with ⟨j, spec, hget, hoffer, hcov⟩
          subst hoffer
          simpa [getResourceOffer] using hcov
        · rcases mem_collectMissing ctl nowNanos active _ 0 o ho
            with ⟨j, spec, hget, hoffer, hcov⟩
          subst hoffer
          refine ⟨j, ?_, by simp [getResourceOffer]⟩
          have := List.getElem?_eq_some.mp hget
          exact this.1
      · exact Or.inr (Or.inr ⟨o, ha'⟩)
  refine ⟨hmain, ?_, ?_, ?_⟩
  · intro offer hmem
    rcases hmain _ hmem with h | ⟨o, ho, _, _⟩ | ⟨o, ho⟩
    · exact absurd h (by simp)
    · exact absurd ho (by simp)
    · exact absurd ho (by simp)
  · intro id hmem
    rcases hmain _ hmem with h | ⟨o, ho, _, _⟩ | ⟨o, ho⟩
    · exact absurd h (by simp)
    · exact absurd ho (by simp)
    · exact absurd ho (by simp)
  · intro deal hmem
    rcases hmain _ hmem with h | ⟨o, ho, _, _⟩ | ⟨o, ho⟩
    · exact absurd h (by simp)
    · exact absurd ho (by simp)
    · exact absurd ho (by simp)

/-- C9, witness: in the one-missing-index cycle, no update call, no
removal call and no ledger action occurs in the trace. -/
theorem C9_only_adds_missing_witness :
    RPAction.solverUpdateResourceOffer (getResourceOffer ctlEx 1234000000 0 specA)
        ∉ (ensureResourceOffers ctlEx envOneMissing 1234000000).1
    ∧ RPAction.solverRemoveResourceOffer "container"
        ∉ (ensureResourceOffers ctlEx envOneMissing 1234000000).1
    ∧ RPAction.ledgerAgree dealEx
        ∉ (ensureResourceOffers ctlEx envOneMissing 1234000000).1 := by
  have h := C9_only_adds_missing ctlEx envOneMissing 1234000000 [containerAt 0] rfl
  exact ⟨h.2.1 _, h.2.2.1 _, h.2.2.2 _⟩

/-- Helper: `solve` when the deal-agreement pass fails — the resource-offer
pass does not run, and the agreement error is returned. -/
theorem solve_agree_error (ctl : Controller) (env : SolverEnv) (nowNanos : Nat)
    (e : Err) (h : (agreeToDeals ctl env).2 = some e) :
    solve ctl env nowNanos
      = (RPAction.logDebug "solving" :: (agreeToDeals ctl env).1, some e) := by
  rw [solve]
  rcases hA : agreeToDeals ctl env with ⟨tr, res⟩
  rw [hA] at h
  simp at h
  subst h
  simp

/-- Helper: `solve` when the deal-agreement pass succeeds — the
resource-offer pass runs after it and determines the result. -/
theorem solve_agree_ok (ctl : Controller) (env : SolverEnv) (nowNanos : Nat)
    (h : (agreeToDeals ctl env).2 = none) :
    solve ctl env nowNanos
      = (RPAction.logDebug "solving"
          :: ((agreeToDeals ctl env).1 ++ (ensureResourceOffers ctl env nowNanos).1),
         (ensureResourceOffers ctl env nowNanos).2) := by
  rw [solve]
  rcases hA : agreeToDeals ctl env with ⟨tr, res⟩
  rw [hA] at h
  simp at h
  subst h
  simp

/-- Helper: peeling the first successful cycle off the ok-cycles trace. -/
theorem okCyclesTrace_succ_front (ctl : Controller) (env : Nat → SolverEnv)
    (now : Nat → Nat) (b k : Nat) :
    okCyclesTrace ctl env now b (k + 1)
      = LoopEvent.cycleRun b (solve ctl (env b) (now b)).1 none
        :: LoopEvent.sleepDone b :: okCyclesTrace ctl env now (b + 1) k := by
  rw [okCyclesTrace]

/-- Helper: while the first `k` cycles from cycle `b` succeed and none of
them is the cancellation point, the loop trace is the ok-cycles trace of
those `k` cycles followed by the remaining run from cycle `b + k`. -/
theorem loopFrom_append (ctl : Controller) (env : Nat → SolverEnv) (now : Nat → Nat)
    (cancelAt : Option Nat) (k m b : Nat)
    (hok : ∀ j, j < k → (solve ctl (env (b + j)) (now (b + j))).2 = none)
    (hcancel : ∀ j, j < k → cancelAt ≠ some (b + j)) :
    loopFrom ctl env now cancelAt b (k + (m + 1))
      = okCyclesTrace ctl env now b k
          ++ loopFrom ctl env now cancelAt (b + k) (m + 1) := by
  induction k generalizing b with
  | zero => simp [okCyclesTrace]
  | succ k ih =>
    have hfuel : (k + 1) + (m + 1) = (k + (m + 1)) + 1 := by omega
    rw [hfuel, loopFrom]
    have h0 : (solve ctl (env b) (now b)).2 = none := by
      simpa using hok 0 (Nat.succ_pos k)
    rw [h0]
    have hc0 : ¬(cancelAt = some b) := by
      simpa using hcancel 0 (Nat.succ_pos k)
    rw [if_neg hc0]
    have ihr := ih (b + 1)
      (fun j hj => by
        have := hok (j + 1) (Nat.succ_lt_succ hj)
        simpa [Nat.add_assoc, Nat.add_comm 1 j] using this)
      (fun j hj => by
        have := hcancel (j + 1) (Nat.succ_lt_succ hj)
        simpa [Nat.add_assoc, Nat.add_comm 1 j] using this)
    rw [ihr, okCyclesTrace_succ_front]
    simp [Nat.add_assoc, Nat.add_comm 1 k]

/-- Helper: the events of the ok-cycles trace are the successful cycle
events and their completed sleeps. -/
theorem mem_okCyclesTrace (ctl : Controller) (env : Nat → SolverEnv) (now : Nat → Nat)
    (b k : Nat) (ev : LoopEvent) (h : ev ∈ okCyclesTrace ctl env now b k) :
    ∃ j, j < k
      ∧ (ev = LoopEvent.cycleRun (b + j) (solve ctl (env (b + j)) (now (b + j))).1 none
        ∨ ev = LoopEvent.sleepDone (b + j)) := by
  induction k generalizing b with
  | zero => simp [okCyclesTrace] at h
  | succ k ih =>
    rw [okCyclesTrace] at h
    rcases List.mem_cons.mp h with h1 | h1
    · exact ⟨0, Nat.succ_pos k, Or.inl (by simpa using h1)⟩
    · rcases List.mem_cons.mp h1 with h2 | h2
      · exact ⟨0, Nat.succ_pos k, Or.inr (by simpa using h2)⟩
      · rcases ih (b + 1) h2 with ⟨j, hj, hev⟩
        refine ⟨j + 1, Nat.succ_lt_succ hj, ?_⟩
        rcases hev with hev | hev
        · exact Or.inl (by simpa [Nat.add_assoc, Nat.add_comm 1 j] using hev)
        · exact Or.inr (by simpa [Nat.add_assoc, Nat.add_comm 1 j] using hev)

/-- C2: if the first `k` cycles succeed (and cancellation is not observed
among them) and cycle `k` fails with error `e`, the loop trace — whatever
extra fuel remains — is exactly the `k` successful cycles with their
sleeps, the failed cycle, and a single forwarding of `e` on the error
channel, after which nothing happens: the error is emitted exactly once,
no cycle beyond `k` ever starts (no retry, no further tick).  Within every
cycle the deal-agreement pass runs first and the resource-offer pass runs
exactly when it succeeded. -/
theorem C2_fail_fast (ctl : Controller) (env : Nat → SolverEnv) (now : Nat → Nat)
    (cancelAt : Option Nat) (k fuel : Nat) (e : Err)
    (hok : ∀ j, j < k → (solve ctl (env j) (now j)).2 = none)
    (hcancel : ∀ j, j < k → cancelAt ≠ some j)
    (herr : (solve ctl (env k) (now k)).2 = some e) :
    loopRun ctl env now cancelAt (k + (fuel + 1))
      = okCyclesTrace ctl env now 0 k
          ++ [LoopEvent.cycleRun k (solve ctl (env k) (now k)).1 (some e),
              LoopEvent.errorEmitted e]
    ∧ (loopRun ctl env now cancelAt (k + (fuel + 1))).countP isErrorEmittedB = 1
    ∧ (∀ i a r, LoopEvent.cycleRun i a r
          ∈ loopRun ctl env now cancelAt (k + (fuel + 1)) → i ≤ k)
    ∧ (∀ i e', (agreeToDeals ctl (env i)).2 = some e' →
        solve ctl (env i) (now i)
          = (RPAction.logDebug "solving" :: (agreeToDeals ctl (env i)).1, some e'))
    ∧ (∀ i, (agreeToDeals ctl (env i)).2 = none →
        solve ctl (env i) (now i)
          = (RPAction.logDebug "solving"
              :: ((agreeToDeals ctl (env i)).1
                  ++ (ensureResourceOffers ctl (env i) (now i)).1),
             (ensureResourceOffers ctl (env i) (now i)).2)) := by
  have htrace : loopRun ctl env now cancelAt (k + (fuel + 1))
      = okCyclesTrace ctl env now 0 k
          ++ [LoopEvent.cycleRun k (solve ctl (env k) (now k)).1 (some e),
              LoopEvent.errorEmitted e] := by
    rw [loopRun, loopFrom_append ctl env now cancelAt k fuel 0
      (fun j hj => by simpa using hok j hj)
      (fun j hj => by simpa using hcancel j hj)]
    rw [Nat.zero_add, loopFrom, herr]
  refine ⟨htrace, ?_, ?_,
    fun i e' h => solve_agree_error ctl (env i) (now i) e' h,
    fun i h => solve_agree_ok ctl (env i) (now i) h⟩
  · rw [htrace, List.countP_append]
    have h0 : (okCyclesTrace ctl env now 0 k).countP isErrorEmittedB = 0 :=
      List.countP_eq_zero.mpr (fun ev hev => by
        rcases mem_okCyclesTrace ctl env now 0 k ev hev with ⟨j, _, hev'⟩
        rcases hev' with hev' | hev' <;> simp [hev', isErrorEmittedB])
    rw [h0]
    rfl
  · intro i a r hmem
    rw [htrace] at hmem
    rcases List.mem_append.mp hmem with h | h
    · rcases mem_okCyclesTrace ctl env now 0 k _ h with ⟨j, hj, hev⟩
      rcases hev with hev | hev
      · injection hev with h1 h2 h3
        omega
      · exact absurd hev (by simp)
    · rcases List.mem_cons.mp h with h1 | h1
      · injection h1 with h1 h2 h3
        omega
      · rcases List.mem_cons.mp h1 with h2 | h2
        · exact absurd h2 (by simp)
        · simp at h2

/-- C2, witness: cycle 0 fully succeeds, cycle 1 fails its deals query —
the loop runs cycle 0, sleeps, runs cycle 1, emits the error once and
stops. -/
theorem C2_fail_fast_witness :
    loopRun ctlEx envSeqFailAt1 nowEx none 4
      = okCyclesTrace ctlEx envSeqFailAt1 nowEx 0 1
          ++ [LoopEvent.cycleRun 1 (solve ctlEx (envSeqFailAt1 1) (nowEx 1)).1
                (some "deals query failed"),
              LoopEvent.errorEmitted "deals query failed"]
    ∧ (loopRun ctlEx envSeqFailAt1 nowEx none 4).countP isErrorEmittedB = 1 := by
  have h := C2_fail_fast ctlEx envSeqFailAt1 nowEx none 1 2 "deals query failed"
    (by decide) (by decide) (by decide)
  exact ⟨h.1, h.2.1⟩

/-- C6: when every cycle up to the cancellation point succeeds and the
cancellation signal is observed at the select after cycle `k` (whether it
arrived during the sleep or before the next tick), the loop trace is
exactly the `k` earlier cycles with their sleeps, the complete in-flight
cycle `k` — which always runs to completion, since `ctx.Done()` is
consulted only in the select between cycles — and the cancellation exit;
no value is ever emitted on the error channel and no cycle beyond `k`
starts. -/
theorem C6_cancellation_clean_exit (ctl : Controller) (env : Nat → SolverEnv)
    (now : Nat → Nat) (k fuel : Nat)
    (hok : ∀ j, j ≤ k → (solve ctl (env j) (now j)).2 = none) :
    loopRun ctl env now (some k) (k + (fuel + 1))
      = okCyclesTrace ctl env now 0 k
          ++ [LoopEvent.cycleRun k (solve ctl (env k) (now k)).1 none,
              LoopEvent.cancelledExit k]
    ∧ (∀ ev ∈ loopRun ctl env now (some k) (k + (fuel + 1)),
        isErrorEmittedB ev = false)
    ∧ (∀ i a r, LoopEvent.cycleRun i a r
          ∈ loopRun ctl env now (some k) (k + (fuel + 1)) → i ≤ k) := by
  have htrace : loopRun ctl env now (some k) (k + (fuel + 1))
      = okCyclesTrace ctl env now 0 k
          ++ [LoopEvent.cycleRun k (solve ctl (env k) (now k)).1 none,
              LoopEvent.cancelledExit k] := by
    rw [loopRun, loopFrom_append ctl env now (some k) k fuel 0
      (fun j hj => by simpa using hok j (Nat.le_of_lt hj))
      (fun j hj => by simp; omega)]
    rw [Nat.zero_add, loopFrom, hok k (Nat.le_refl k), if_pos rfl]
  refine ⟨htrace, ?_, ?_⟩
  · intro ev hev
    rw [htrace] at hev
    rcases List.mem_append.mp hev with h | h
    · rcases mem_okCyclesTrace ctl env now 0 k ev h with ⟨j, _, hev'⟩
      rcases hev' with hev' | hev' <;> simp [hev', isErrorEmittedB]
    · rcases List.mem_cons.mp h with h1 | h1
      · simp [h1, isErrorEmittedB]
      · rcases List.mem_cons.mp h1 with h2 | h2
        · simp [h2, isErrorEmittedB]
        · simp at h2
  · intro i a r hmem
    rw [htrace] at hmem
    rcases List.mem_append.mp hmem with h | h
    · rcases mem_okCyclesTrace ctl env now 0 k _ h with ⟨j, hj, hev⟩
      rcases hev with hev | hev
      · injection hev with h1 h2 h3
        omega
      · exact absurd hev (by simp)
    · rcases List.mem_cons.mp h with h1 | h1
      · injection h1 with h1 h2 h3
        omega
      · rcases List.mem_cons.mp h1 with h2 | h2
        · exact absurd h2 (by simp)
        · simp at h2

/-- C6, witness: with all cycles succeeding and cancellation observed
after cycle 1, the loop runs cycles 0 and 1 to completion and exits with
no emission. -/
theorem C6_cancellation_clean_exit_witness :
    loopRun ctlEx (fun _ => envAllOk) nowEx (some 1) 3
      = okCyclesTrace ctlEx (fun _ => envAllOk) nowEx 0 1
          ++ [LoopEvent.cycleRun 1 (solve ctlEx envAllOk (nowEx 1)).1 none,
              LoopEvent.cancelledExit 1] :=
  (C6_cancellation_clean_exit ctlEx (fun _ => envAllOk) nowEx 1 1 (by decide)).1

/-- Helper: in every loop trace, a completed 1-second wait only ever
appears immediately after a successfully completed cycle of the same
cycle number. -/
theorem waitsOnlyAfterCycles_loopFrom (ctl : Controller) (env : Nat → SolverEnv)
    (now : Nat → Nat) (cancelAt : Option Nat) :
    ∀ fuel b, waitsOnlyAfterCycles (loopFrom ctl env now cancelAt b fuel) = true := by
  intro fuel
  induction fuel with
  | zero => intro b; rfl
  | succ fuel ih =>
    intro b
    rw [loopFrom]
    cases hr : (solve ctl (env b) (now b)).2 with
    | some e => rfl
    | none =>
      by_cases hc : cancelAt = some b
      · rw [if_pos hc]
        rfl
      · rw [if_neg hc]
        have := ih (b + 1)
        simp [waitsOnlyAfterCycles, this]

/-- C10: the first reconciliation cycle runs immediately: the head of
every (non-empty-fuel) loop trace is the complete cycle 0 — no sleep
precedes it — and throughout the run the 1-second wait is only ever
inserted immediately after a completed successful cycle. -/
theorem C10_first_cycle_immediate (ctl : Controller) (env : Nat → SolverEnv)
    (now : Nat → Nat) (cancelAt : Option Nat) (fuel : Nat) :
    waitsOnlyAfterCycles (loopRun ctl env now cancelAt fuel) = true
    ∧ (loopRun ctl env now cancelAt (fuel + 1)).head?
        = some (LoopEvent.cycleRun 0 (solve ctl (env 0) (now 0)).1
            (solve ctl (env 0) (now 0)).2) := by
  refine ⟨waitsOnlyAfterCycles_loopFrom ctl env now cancelAt fuel 0, ?_⟩
  rw [loopRun, loopFrom]
  cases hr : (solve ctl (env 0) (now 0)).2 with
  | some e => rfl
  | none =>
    by_cases hc : cancelAt = some 0
    · rw [if_pos hc]
      rfl
    · rw [if_neg hc]
      rfl

/-- C4: if a fallible setup step of `Start` fails (only the solver-client
start and the web3-event start can — the two subscription steps return nil
unconditionally), the reconciliation loop never starts and no cycle ever
runs; but the error is NOT surfaced to the caller: `Start` executes
`errorChan <- err` on the just-created unbuffered channel before returning
it, and since no other goroutine can yet hold the channel there is no
receiver, so the send blocks forever and `Start` never returns. -/
theorem C4_setup_failure_blocks (senv : SetupEnv) (e : Err)
    (h : senv.solverClientStart = some e
      ∨ (senv.solverClientStart = none ∧ senv.web3EventsStart = some e)) :
    startController senv = StartResult.blocked e
    ∧ (∀ ctl env now cancelAt fuel,
        (startRun ctl senv env now cancelAt fuel).2 = []) := by
  have hsc : startController senv = StartResult.blocked e := by
    rcases h with h | ⟨h1, h2⟩
    · simp [startController, subscribeToSolverSetupResult,
        subscribeToWeb3SetupResult, h]
    · simp [startController, subscribeToSolverSetupResult,
        subscribeToWeb3SetupResult, h1, h2]
  exact ⟨hsc, fun ctl env now cancelAt fuel => by rw [startRun, hsc]⟩

/-- C4, witness: with `web3Events.Start` failing, `Start` blocks on the
unread unbuffered error channel and the loop trace is empty — no
reconciliation cycle ever runs and the caller never obtains the channel. -/
theorem C4_setup_failure_blocks_witness :
    startController setupWeb3Fails = StartResult.blocked "web3 events start failed"
    ∧ (startRun ctlEx setupWeb3Fails (fun _ => envAllOk) nowEx none 5).2 = [] := by
  have h := C4_setup_failure_blocks setupWeb3Fails "web3 events start failed"
    (Or.inr ⟨rfl, rfl⟩)
  exact ⟨h.1, h.2 ctlEx (fun _ => envAllOk) nowEx none 5⟩
